import Mathlib

set_option maxRecDepth 8192

/-!
Verification of the episodic-memory engine (gem.py): the temporal movement
graph, the memory index with synonym and fuzzy matching, the decay scorer,
the cleanup policy, the time-expression parser and the query dispatcher.
Python strings are modelled as Lean strings, Python dicts as insertion-ordered
association lists, Python sets as finite sets, floats as real numbers
(rationals where a computable order is needed), and datetimes as integer
seconds since the epoch.
-/

/-! ### Python string primitives -/

/-- Python str.lower, restricted to the ASCII case handling Lean provides. -/
def pyLower (s : String) : String :=
  ⟨s.data.map Char.toLower⟩

/-- Python str.strip with no argument: drop whitespace from both ends. -/
def pyStrip (s : String) : String :=
  ⟨((s.data.dropWhile Char.isWhitespace).reverse.dropWhile Char.isWhitespace).reverse⟩

/-- Python substring containment needle in hay. -/
def substrOf (needle hay : String) : Bool :=
  hay.data.tails.any (fun t => needle.data.isPrefixOf t)

/-- Python str.endswith. -/
def pyEndsWith (s suf : String) : Bool :=
  suf.data.isSuffixOf s.data

/-- Remainder of the list after an initial occurrence of pat, if pat leads it. -/
def dropPat : List Char → List Char → Option (List Char)
  | [], s => some s
  | _ :: _, [] => none
  | p :: ps, c :: cs => if p = c then dropPat ps cs else none

/-- Fuelled worker for removing every occurrence of a pattern. -/
def removeAllAux : Nat → List Char → List Char → List Char
  | 0, _, s => s
  | _ + 1, _, [] => []
  | fuel + 1, pat, c :: cs =>
    match dropPat pat (c :: cs) with
    | some r => removeAllAux fuel pat r
    | none => c :: removeAllAux fuel pat cs

/-- Python s.replace(pat, empty): delete every occurrence of pat, left to right,
non-overlapping. Only used with non-empty patterns, as in the source. -/
def pyRemoveAll (s pat : String) : String :=
  ⟨removeAllAux s.data.length pat.data s.data⟩

/-- Python s[: len s - n] on strings: drop the last n characters, empty when
n exceeds the length. -/
def pyDropRight (s : String) (n : Nat) : String :=
  ⟨s.data.take (s.data.length - n)⟩

/-- Python str.rstrip with a single character argument. -/
def pyRstripChar (s : String) (c : Char) : String :=
  ⟨(s.data.reverse.dropWhile (fun x => x = c)).reverse⟩

/-- Worker for whitespace splitting, carrying the current word reversed. -/
def pyWordsAux : List Char → List Char → List (List Char)
  | [], cur => if cur.isEmpty then [] else [cur.reverse]
  | c :: cs, cur =>
    if c.isWhitespace then
      if cur.isEmpty then pyWordsAux cs [] else cur.reverse :: pyWordsAux cs []
    else pyWordsAux cs (c :: cur)

/-- Python str.split with no argument: split on whitespace runs, no empties. -/
def pySplitWs (s : String) : List String :=
  (pyWordsAux s.data []).map String.mk

/-! ### Insertion-ordered dictionaries (Python dict) -/

/-- Python dict assignment d[k] = v: overwrite in place, else append. -/
def dictSet {α : Type} (d : List (String × α)) (k : String) (v : α) :
    List (String × α) :=
  match d with
  | [] => [(k, v)]
  | (k0, v0) :: rest =>
    if k0 = k then (k, v) :: rest else (k0, v0) :: dictSet rest k v

/-- Python set.add on the list model of sets: duplicate-free lists in
insertion order. -/
def setAdd (l : List String) (x : String) : List String :=
  if x ∈ l then l else l ++ [x]

/-- Python set.update on the list model of sets. -/
def setUpdate (l xs : List String) : List String :=
  xs.foldl setAdd l

/-- Python d.setdefault(k, set()).add(v) on a dict of sets. -/
def dictAddToSet (d : List (String × List String)) (k v : String) :
    List (String × List String) :=
  match d with
  | [] => [(k, [v])]
  | (k0, s) :: rest =>
    if k0 = k then (k0, setAdd s v) :: rest else (k0, s) :: dictAddToSet rest k v

/-! ### Temporal movement graph (gem.py section 4, lines 645..1099) -/

/-- ObjectMovement dataclass: one recorded transition of an entity. -/
structure ObjectMovement where
  object_name : String
  from_location : String
  to_location : String
  from_position : String
  to_position : String
  from_time : String
  to_time : String
  from_memory_id : String
  to_memory_id : String
deriving DecidableEq

/-- Generic filler words recognised by normalize_location. -/
def generic_words : List String :=
  ["room", "space", "area", "indoor", "outdoor", "inside", "office", "workspace"]

/-- Suffix-stripping loop of normalize_location: each generic word is tested
once, in list order, against the current value. -/
def stripGenericSuffixes : List String → String → String
  | [], loc => loc
  | suf :: rest, loc =>
    let loc1 := if pyEndsWith loc (" " ++ suf) then
      pyStrip (pyDropRight loc (suf.data.length + 1)) else loc
    stripGenericSuffixes rest loc1

/-- normalize_location from TemporalGraph.update (gem.py lines 832..851).
Note the source uses loc.replace(p, empty) for each qualifier, which deletes
every occurrence of the qualifier, not only a leading one. -/
def normalize_location (loc0 : String) : String :=
  let loc := pyStrip (pyLower loc0)
  let loc := ["indoor ", "outdoor ", "inside ", "the "].foldl pyRemoveAll loc
  let loc := pyStrip loc
  if loc ∈ generic_words ∨ loc = "" then "generic"
  else
    let loc := stripGenericSuffixes generic_words loc
    if loc ∈ generic_words ∨ loc = "" then "generic"
    else if loc = "" then "generic" else loc

/-- Primary axis of a frame position (gem.py lines 861..864). -/
def primaryDir (p : String) : String :=
  if substrOf "top" p then "top"
  else if substrOf "bottom" p then "bottom"
  else "center"

/-- Secondary axis of a frame position (gem.py lines 865..868). -/
def secondaryDir (p : String) : String :=
  if substrOf "left" p then "left"
  else if substrOf "right" p then "right"
  else "center"

/-- positions_different from TemporalGraph.update (gem.py lines 855..871):
different only when both axes disagree. -/
def positions_different (pos1 pos2 : String) : Bool :=
  let p1 := pyLower pos1
  let p2 := pyLower pos2
  if p1 = p2 then false
  else decide (primaryDir p1 ≠ primaryDir p2) && decide (secondaryDir p1 ≠ secondaryDir p2)

/-- TemporalGraph state: the three maps it exclusively owns plus counters. -/
structure TemporalGraph where
  last_seen : List (String × (String × String × String × String)) := []
  movements : List (String × List ObjectMovement) := []
  attached_objects : List (String × (String × String)) := []
  total_movements : Nat := 0
  start_time : String := ""
deriving DecidableEq

/-- TemporalGraph.update (gem.py lines 798..909): detect and record movement,
then update last_seen regardless. Returns the new state and the emitted
movement, if any. -/
def TemporalGraph.update (g : TemporalGraph) (obj_name location position timestamp memory_id : String) :
    TemporalGraph × Option ObjectMovement :=
  let name := pyLower obj_name
  match List.lookup name g.last_seen with
  | some (prev_loc, prev_pos, prev_time, prev_mem) =>
    let norm_prev := normalize_location prev_loc
    let norm_curr := normalize_location location
    let location_changed := decide (norm_prev ≠ norm_curr)
    let position_changed := positions_different prev_pos position
    if location_changed || position_changed then
      let m : ObjectMovement :=
        { object_name := name
          from_location := prev_loc
          to_location := location
          from_position := prev_pos
          to_position := position
          from_time := prev_time
          to_time := timestamp
          from_memory_id := prev_mem
          to_memory_id := memory_id }
      let hist := (List.lookup name g.movements).getD []
      let g1 := { g with
        movements := dictSet g.movements name ((m :: hist).take 100)
        total_movements := g.total_movements + 1
        last_seen := dictSet g.last_seen name (location, position, timestamp, memory_id) }
      (g1, some m)
    else
      ({ g with last_seen := dictSet g.last_seen name (location, position, timestamp, memory_id) }, none)
  | none =>
    ({ g with last_seen := dictSet g.last_seen name (location, position, timestamp, memory_id) }, none)

/-- TemporalGraph.get_history (gem.py lines 911..922). -/
def TemporalGraph.get_history (g : TemporalGraph) (obj_name : String) (limit : Nat) :
    List ObjectMovement :=
  ((List.lookup (pyLower obj_name) g.movements).getD []).take limit

/-! ### Memory records (gem.py lines 555..1180) -/

/-- BoundingBox dataclass: a detection with its normalized box and context. -/
structure BoundingBox where
  name : String
  x1 : Rat
  y1 : Rat
  x2 : Rat
  y2 : Rat
  confidence : Rat
  context : String
deriving DecidableEq

/-- Visual person entry of Memory.persons: a dict with an optional linked
name and a description. -/
structure PersonInfo where
  name : Option String
  description : String
deriving DecidableEq

/-- Memory dataclass: one episodic record. Fields are as in the source;
image payload bytes are not modelled. -/
structure Memory where
  id : String
  timestamp : String
  location : String
  description : String
  objects : List BoundingBox
  activities : List String
  tags : List String
  relationships : List String
  audio_transcript : String
  people : List String
  conversation_context : String
  persons : List PersonInfo
  image_path : String
deriving DecidableEq

/-- Memory.find_object (gem.py lines 1147..1167): first detection whose
lowercased name contains the lowercased query as a substring. -/
def Memory.find_object (m : Memory) (name : String) : Option BoundingBox :=
  let nl := pyLower name
  m.objects.find? (fun obj => substrOf nl (pyLower obj.name))

/-! ### Memory index (gem.py lines 3200..3770) -/

/-- Cached per-record metadata written by MemoryIndex.add. -/
structure MemoryMeta where
  timestamp : String
  location : String
  objects : String
  activities : String
  people : String
  persons : String
  image_path : String
  tags : String
  relationships : String
  description : String
  audio_transcript : String
  conversation_context : String
deriving DecidableEq

/-- MemoryIndex state: the three hash indices plus the metadata cache and
the access log (access count and last-accessed timestamp per id). -/
structure MemoryIndex where
  by_object : List (String × List String)
  by_activity : List (String × List String)
  by_person : List (String × List String)
  memories : List (String × MemoryMeta)
  access_log : List (String × (Nat × String))
deriving DecidableEq

/-- MemoryIndex.OBJECT_SYNONYMS (gem.py lines 3474..3513), in source order. -/
def OBJECT_SYNONYMS : List (String × String) :=
  [("eyeglasses", "glasses"),
   ("eye glasses", "glasses"),
   ("spectacles", "glasses"),
   ("specs", "glasses"),
   ("reading glasses", "glasses"),
   ("sunglasses", "glasses"),
   ("mobile", "phone"),
   ("mobile phone", "phone"),
   ("cell phone", "phone"),
   ("cellphone", "phone"),
   ("smartphone", "phone"),
   ("iphone", "phone"),
   ("android", "phone"),
   ("mug", "cup"),
   ("coffee mug", "cup"),
   ("coffee cup", "cup"),
   ("tea cup", "cup"),
   ("car keys", "keys"),
   ("house keys", "keys"),
   ("key", "keys"),
   ("tv remote", "remote"),
   ("remote control", "remote"),
   ("purse", "wallet"),
   ("billfold", "wallet"),
   ("notebook", "laptop"),
   ("macbook", "laptop"),
   ("computer", "laptop"),
   ("earphones", "headphones"),
   ("earbuds", "headphones"),
   ("airpods", "headphones")]

/-- MemoryIndex.SYNONYM_GROUPS (gem.py lines 3516..3524): canonical name to
the set of itself and all its synonyms, built by the two class-body loops. -/
def SYNONYM_GROUPS : List (String × List String) :=
  let g := OBJECT_SYNONYMS.foldl (fun d (p : String × String) =>
    let d := if (List.lookup p.2 d).isSome then d else d ++ [(p.2, [p.2])]
    dictAddToSet d p.2 p.1) []
  OBJECT_SYNONYMS.foldl (fun d (p : String × String) =>
    if (List.lookup p.2 d).isSome then d else d ++ [(p.2, [p.2])]) g

/-- Search-term expansion at the top of find_by_object (gem.py 3530..3541). -/
def searchTermsFor (name : String) : List String :=
  let terms : List String := [name]
  let terms := match List.lookup name OBJECT_SYNONYMS with
    | some canonical =>
      let terms := setAdd terms canonical
      match List.lookup canonical SYNONYM_GROUPS with
      | some grp => setUpdate terms grp
      | none => terms
    | none => terms
  match List.lookup name SYNONYM_GROUPS with
  | some grp => setUpdate terms grp
  | none => terms

/-! ### Code-point string order and a stable insertion sort
matching Python list.sort and sorted -/

/-- Lexicographic comparison of char lists by code point, as Python compares
strings. -/
def lexLeb : List Char → List Char → Bool
  | [], _ => true
  | _ :: _, [] => false
  | a :: as, b :: bs => if a < b then true else if b < a then false else lexLeb as bs

/-- Python string comparison le. -/
def strLeb (a b : String) : Bool := lexLeb a.data b.data

/-- Stable insertion step: the new element goes after every element that
compares at or below it. -/
def insertStable {α : Type} (le : α → α → Bool) (x : α) : List α → List α
  | [] => [x]
  | y :: ys => if le y x then y :: insertStable le x ys else x :: y :: ys

/-- Stable insertion sort worker over a sorted accumulator. -/
def pyStableSortAux {α : Type} (le : α → α → Bool) : List α → List α → List α
  | acc, [] => acc
  | acc, x :: xs => pyStableSortAux le (insertStable le x acc) xs

/-- Python sorted and list.sort: a stable sort by the given comparison. -/
def pyStableSort {α : Type} (le : α → α → Bool) (l : List α) : List α :=
  pyStableSortAux le [] l

/-- Python sorted(matches, reverse=True) on a set of id strings: the
distinct elements in descending code-point order. -/
def pySortedDesc (s : List String) : List String :=
  (pyStableSort strLeb s.dedup).reverse

/-- Exact-match pass of find_by_object: union of the buckets of all expanded
search terms (gem.py 3544..3547). -/
def exactMatches (by_object : List (String × List String)) (terms : List String) :
    List String :=
  by_object.foldl (fun acc kv => if kv.1 ∈ terms then setUpdate acc kv.2 else acc) []

/-- Fuzzy acceptance test of find_by_object for one index key and one term:
singular/plural equivalence or whitespace-delimited sub-token containment
(gem.py 3555..3562). -/
def fuzzyCond (key term : String) : Bool :=
  decide (pyRstripChar key 's' = pyRstripChar term 's')
  || decide (term ∈ pySplitWs key)
  || decide (key ∈ pySplitWs term)

/-- Fuzzy pass of find_by_object: union of buckets whose key fuzzily matches
some expanded term. -/
def fuzzyMatches (by_object : List (String × List String)) (terms : List String) :
    List String :=
  by_object.foldl
    (fun acc kv => if ∃ t ∈ terms, fuzzyCond kv.1 t = true then setUpdate acc kv.2 else acc) []

/-- MemoryIndex.find_by_object (gem.py 3526..3564). -/
def MemoryIndex.find_by_object (idx : MemoryIndex) (name0 : String) : List String :=
  let name := pyStrip (pyLower name0)
  let terms := searchTermsFor name
  let ms := exactMatches idx.by_object terms
  if ms ≠ [] then pySortedDesc ms
  else pySortedDesc (fuzzyMatches idx.by_object terms)

/-- MemoryIndex.add (gem.py 3320..3374): cache metadata and update the three
hash indices. Disk persistence is outside the model. -/
def MemoryIndex.add (idx : MemoryIndex) (memory : Memory) : MemoryIndex :=
  let person_descs := memory.persons.map (fun p => p.description)
  let meta : MemoryMeta :=
    { timestamp := memory.timestamp
      location := memory.location
      objects := String.intercalate "," (memory.objects.map (fun o => o.name))
      activities := String.intercalate "," memory.activities
      people := String.intercalate "," memory.people
      persons := String.intercalate ";" person_descs
      image_path := memory.image_path
      tags := String.intercalate "," memory.tags
      relationships := String.intercalate ";" memory.relationships
      description := memory.description
      audio_transcript := memory.audio_transcript
      conversation_context := memory.conversation_context }
  let memories := dictSet idx.memories memory.id meta
  let by_object := memory.objects.foldl
    (fun d obj => dictAddToSet d (pyLower obj.name) memory.id) idx.by_object
  let by_activity := memory.activities.foldl
    (fun d a => dictAddToSet d (pyLower a) memory.id) idx.by_activity
  let by_person := memory.people.foldl
    (fun d p => dictAddToSet d (pyLower p) memory.id) idx.by_person
  let by_person := memory.persons.foldl (fun d pi =>
    let d := match pi.name with
      | some n => if n ≠ "" then dictAddToSet d (pyLower n) memory.id else d
      | none => d
    if pi.description ≠ "" then dictAddToSet d (pyLower pi.description) memory.id else d)
    by_person
  { idx with
    memories := memories
    by_object := by_object
    by_activity := by_activity
    by_person := by_person }

/-- MemoryIndex.find_by_person (gem.py 3566..3603). The fuzzy pass evaluates
key.split()[0], which raises IndexError in Python when the split is empty;
this is modelled with the Except error value. -/
def MemoryIndex.find_by_person (idx : MemoryIndex) (name0 : String) :
    Except Unit (List String) :=
  let name := pyStrip (pyLower name0)
  if name = "" then
    Except.ok (pySortedDesc (idx.by_person.foldl (fun acc kv => setUpdate acc kv.2) []))
  else
    match List.lookup name idx.by_person with
    | some ids => Except.ok (pySortedDesc ids)
    | none => do
      let ms ← idx.by_person.foldlM (fun (acc : List String) kv => do
        let acc := if substrOf name kv.1 || substrOf kv.1 name then setUpdate acc kv.2 else acc
        match pySplitWs name, pySplitWs kv.1 with
        | n0 :: _, k0 :: _ => pure (if n0 = k0 then setUpdate acc kv.2 else acc)
        | _, _ => Except.error ()) ([] : List String)
      pure (pySortedDesc ms)

/-! ### Decay scorer (gem.py lines 3421..3467) -/

/-- Recency plus retrieval boost, on the age in days and the access count.
The source constant is 0.693, a stated approximation of the natural log
of two, and the boost is access_count times 0.1 capped at 1.0. -/
noncomputable def decayScoreR (age_days : Real) (access_count : Nat) : Real :=
  Real.exp (-(0.693) * age_days / 7.0) + min ((access_count : Real) * 0.1) 1.0

/-- MemoryIndex.decay_score on a record: the age in days is the parsed
timestamp difference, or 30 when the timestamp is missing or unparsable,
modelled by the Option argument. -/
noncomputable def decayScoreOf (parsed_age_days : Option Real) (access_count : Nat) : Real :=
  decayScoreR (parsed_age_days.getD 30.0) access_count

/-! ### Cleanup policy (gem.py lines 1313..1394) -/

/-- cleanup_old_memories with an index present: the decay-based branch.
Scores are taken abstractly as rationals (the code reads them from
MemoryIndex.decay_score); memory_files is the sorted chronological list of
live record ids and max_records the MAX_MEMORIES limit. Returns the number
deleted and the list of evicted ids (the candidates); the surviving store is
memory_files minus the evicted ids. Python list.sort(key) is a stable sort
by score, matched here by mergeSort. -/
def cleanup_old_memories (score : String → Rat) (memory_files : List String)
    (max_records : Nat) : Nat × List String :=
  if memory_files.length ≤ max_records then (0, [])
  else
    let to_delete := memory_files.length - max_records
    let sortedFiles := pyStableSort (fun a b => score a ≤ score b) memory_files
    let candidates := sortedFiles.take to_delete
    (candidates.length, candidates)

/-! ### Fuzzy time expression parsing (gem.py lines 3773..3844) -/

/-- Value of a digit character. -/
def digitVal (c : Char) : Nat := c.toNat - 48

/-- Leading run of digits: its value and the rest, with at least one digit. -/
def parseDigits : List Char → Option (Nat × List Char) :=
  fun cs =>
    let ds := cs.takeWhile Char.isDigit
    if ds.isEmpty then none
    else some (ds.foldl (fun acc c => acc * 10 + digitVal c) 0, cs.dropWhile Char.isDigit)

/-- Leading run of whitespace, at least one character. -/
def parseWs1 : List Char → Option (List Char) :=
  fun cs =>
    if (cs.takeWhile Char.isWhitespace).isEmpty then none
    else some (cs.dropWhile Char.isWhitespace)

/-- The regex match of parse_time_entity for one unit word: an anchored
(?:last|past)\s+(N)\s+unit with an optional trailing letter s and anything
after, returning the captured integer. -/
def matchLastPastNum (unit : String) (s : String) : Option Nat :=
  let step : List Char → Option Nat := fun rest => do
    let rest ← parseWs1 rest
    let (n, rest) ← parseDigits rest
    let rest ← parseWs1 rest
    let _ ← dropPat unit.data rest
    pure n
  match dropPat "last".data s.data with
  | some rest => step rest
  | none =>
    match dropPat "past".data s.data with
    | some rest => step rest
    | none => none

/-- Midnight of the current day, on datetimes as integer epoch seconds. -/
def todayStart (now : Int) : Int := now - now % 86400

/-- parse_time_entity (gem.py 3773..3844): fuzzy time expression to a
window of epoch seconds. -/
def parse_time_entity (now : Int) (entity0 : String) : Int × Int :=
  let ts := todayStart now
  let entity := pyStrip (pyLower entity0)
  match matchLastPastNum "hour" entity with
  | some hours => (now - (hours : Int) * 3600, now)
  | none =>
  match matchLastPastNum "minute" entity with
  | some minutes => (now - (minutes : Int) * 60, now)
  | none =>
  if entity = "this morning" then (ts + 6 * 3600, ts + 12 * 3600)
  else if entity = "this afternoon" then (ts + 12 * 3600, ts + 18 * 3600)
  else if entity = "this evening" ∨ entity = "tonight" then
    (ts + 18 * 3600, ts + 23 * 3600 + 59 * 60 + 59)
  else if entity = "today" then (ts, now)
  else if entity = "yesterday" then (ts - 86400, ts)
  else if entity = "last hour" ∨ entity = "past hour" then (now - 3600, now)
  else if entity = "last night" then (ts - 86400 + 20 * 3600, ts + 6 * 3600)
  else (now - 24 * 3600, now)

/-- Guard telling whether parse_time_entity recognises the normalized
expression through any non-default branch. -/
def timeExprRecognized (entity : String) : Bool :=
  (matchLastPastNum "hour" entity).isSome
  || (matchLastPastNum "minute" entity).isSome
  || decide (entity ∈ ["this morning", "this afternoon", "this evening", "tonight",
      "today", "yesterday", "last hour", "past hour", "last night"])

/-! ### Query dispatcher, object path (gem.py lines 4088..4270) -/

/-- Holding-indicator phrases of the placed filter (gem.py line 4241). -/
def IN_HAND_CONTEXTS : List String :=
  ["in hand", "held", "holding", "carrying", "gripping"]

/-- Whether a loaded record counts as a held sighting of the entity: its
matching detection exists, has a non-empty context, and that context
contains a holding indicator (gem.py 4248..4251). -/
def heldRecord (mem : Memory) (entity : String) : Bool :=
  match mem.find_object entity with
  | some obj =>
    obj.context ≠ "" && IN_HAND_CONTEXTS.any (fun hint => substrOf hint (pyLower obj.context))
  | none => false

/-- The placed-filter loop (gem.py 4245..4255): returns the surviving ids in
order and the first held memory encountered, skipping unloadable ids. -/
def placedScan (store : String → Option Memory) (entity : String) :
    List String → List String × Option Memory
  | [] => ([], none)
  | mid :: rest =>
    match store mid with
    | none => placedScan store entity rest
    | some mem =>
      if heldRecord mem entity then
        let r := placedScan store entity rest
        (r.1, some mem)
      else
        let r := placedScan store entity rest
        (mid :: r.1, r.2)

/-- Result shape of the object path of find_object: either the normal
(memory, movement history) answer or the distinct only-held outcome. -/
inductive FindResult where
  | normal (memory : Option Memory) (movements : List ObjectMovement)
  | onlyInHand (memory : Memory) (movements : List ObjectMovement)
deriving DecidableEq

/-- The normal return of the object path (gem.py 4264..4270): newest match
loaded from the store plus the movement history. -/
def normalReturn (store : String → Option Memory) (temporal : TemporalGraph)
    (entity : String) (mem_ids : List String) : FindResult :=
  FindResult.normal (mem_ids.head?.bind store) (temporal.get_history entity 10)

/-- PATH 4 of find_object (gem.py 4235..4270): the object query with the
placed filter. Access-log reinforcement is a side effect on state not
affecting the returned value and is not modelled here. -/
def find_object_objectPath (idx : MemoryIndex) (store : String → Option Memory)
    (temporal : TemporalGraph) (entity : String) (placed : Bool) : FindResult :=
  let mem_ids := idx.find_by_object entity
  if placed && !mem_ids.isEmpty then
    let r := placedScan store entity mem_ids
    if !r.1.isEmpty then normalReturn store temporal entity r.1
    else
      match r.2 with
      | some m => FindResult.onlyInHand m (temporal.get_history entity 10)
      | none => normalReturn store temporal entity mem_ids
  else normalReturn store temporal entity mem_ids

/-! ### Persistence of the temporal graph (gem.py lines 1044..1099) -/

/-- Structured values as written by json5.dumps and read back by json5.loads:
the serialization boundary of TemporalGraph.save and load. -/
inductive JVal where
  | str : String → JVal
  | num : Nat → JVal
  | arr : List JVal → JVal
  | obj : List (String × JVal) → JVal

/-- Encoding of one last_seen or attached tuple as a JSON array of strings. -/
def encodeStrList (xs : List String) : JVal :=
  JVal.arr (xs.map JVal.str)

/-- Encoding of vars(m) for an ObjectMovement: the field dict in declaration
order. -/
def encodeMovement (m : ObjectMovement) : JVal :=
  JVal.obj
    [("object_name", JVal.str m.object_name),
     ("from_location", JVal.str m.from_location),
     ("to_location", JVal.str m.to_location),
     ("from_position", JVal.str m.from_position),
     ("to_position", JVal.str m.to_position),
     ("from_time", JVal.str m.from_time),
     ("to_time", JVal.str m.to_time),
     ("from_memory_id", JVal.str m.from_memory_id),
     ("to_memory_id", JVal.str m.to_memory_id)]

/-- TemporalGraph.save (gem.py 1044..1064): the structured snapshot handed to
json5.dumps, with tuples written as lists. -/
def TemporalGraph.save (g : TemporalGraph) : JVal :=
  JVal.obj
    [("start_time", JVal.str g.start_time),
     ("total_movements", JVal.num g.total_movements),
     ("last_seen", JVal.obj (g.last_seen.map (fun kv =>
        (kv.1, encodeStrList [kv.2.1, kv.2.2.1, kv.2.2.2.1, kv.2.2.2.2])))),
     ("movements", JVal.obj (g.movements.map (fun kv =>
        (kv.1, JVal.arr (kv.2.map encodeMovement))))),
     ("attached_objects", JVal.obj (g.attached_objects.map (fun kv =>
        (kv.1, encodeStrList [kv.2.1, kv.2.2]))))]

/-- Decoding of a JSON string value. -/
def decodeStr : JVal → Option String
  | JVal.str s => some s
  | _ => none

/-- Decoding of a last_seen tuple: Python tuple(v) later unpacked as four
components. -/
def decodeTuple4 : JVal → Option (String × String × String × String)
  | JVal.arr [a, b, c, d] => do
    pure (← decodeStr a, ← decodeStr b, ← decodeStr c, ← decodeStr d)
  | _ => none

/-- Decoding of an attached_objects tuple of two components. -/
def decodeTuple2 : JVal → Option (String × String)
  | JVal.arr [a, b] => do pure (← decodeStr a, ← decodeStr b)
  | _ => none

/-- Decoding of ObjectMovement(**m): every dataclass field must be present
as a string. -/
def decodeMovement : JVal → Option ObjectMovement
  | JVal.obj fields => do
    let f := fun (k : String) => (List.lookup k fields).bind decodeStr
    let object_name ← f "object_name"
    let from_location ← f "from_location"
    let to_location ← f "to_location"
    let from_position ← f "from_position"
    let to_position ← f "to_position"
    let from_time ← f "from_time"
    let to_time ← f "to_time"
    let from_memory_id ← f "from_memory_id"
    let to_memory_id ← f "to_memory_id"
    pure { object_name, from_location, to_location, from_position, to_position,
           from_time, to_time, from_memory_id, to_memory_id }
  | _ => none

/-- Decoding of a JSON object as an association list transformed per value. -/
def decodeDict {α : Type} (f : JVal → Option α) : JVal → Option (List (String × α))
  | JVal.obj fields => fields.mapM (fun kv => do pure (kv.1, ← f kv.2))
  | _ => none

/-- TemporalGraph.load (gem.py 1066..1099) on parsed data: counters default
when missing, the three maps are rebuilt entrywise. The source catches any
decoding exception and logs it, keeping whatever was assigned before the
failure; the model collapses every failing decode to the unchanged input
graph, which agrees with the source on all successfully decoded data. -/
def TemporalGraph.load (data : JVal) (g : TemporalGraph) : TemporalGraph :=
  match data with
  | JVal.obj fields =>
    let start_time := match List.lookup "start_time" fields with
      | some (JVal.str s) => s
      | _ => g.start_time
    let total_movements := match List.lookup "total_movements" fields with
      | some (JVal.num n) => n
      | _ => 0
    let decoded : Option TemporalGraph := do
      let last_seen ← match List.lookup "last_seen" fields with
        | some v => decodeDict decodeTuple4 v
        | none => some []
      let movements ← match List.lookup "movements" fields with
        | some v => decodeDict (fun w => match w with
            | JVal.arr ms => ms.mapM decodeMovement
            | _ => none) v
        | none => some []
      let attached_objects ← match List.lookup "attached_objects" fields with
        | some v => decodeDict decodeTuple2 v
        | none => some []
      pure { last_seen, movements, attached_objects, total_movements, start_time }
    decoded.getD g
  | _ => g

/-! ### Fixtures and claim-side definitions -/

/-- Concrete graph for the C1 witness: keys were last seen on the desk in
the top-left of the frame. -/
def c1Graph : TemporalGraph :=
  { last_seen := [("keys", ("desk", "top-left", "t1", "m1"))] }

/-- Second concrete graph for the C1 witness: keys last seen at the bottom. -/
def c1GraphB : TemporalGraph :=
  { last_seen := [("keys", ("desk", "bottom", "t1", "m1"))] }

/-- Location normalization as the claim words it: qualifiers are stripped
only when they occur as leading prefixes of the string, one test per
qualifier in order, with everything else as in the source. -/
def normalize_location_claimed (loc0 : String) : String :=
  let loc := pyStrip (pyLower loc0)
  let loc := ["indoor ", "outdoor ", "inside ", "the "].foldl
    (fun l p => if p.data.isPrefixOf l.data then ⟨l.data.drop p.data.length⟩ else l) loc
  let loc := pyStrip loc
  if loc ∈ generic_words ∨ loc = "" then "generic"
  else
    let loc := stripGenericSuffixes generic_words loc
    if loc ∈ generic_words ∨ loc = "" then "generic" else loc

/-- Amended normalization, following the corrected claim: lowercase and trim,
then delete every occurrence of each qualifier substring in order (not only
leading ones), trim, collapse a generic or empty remainder to the sentinel,
otherwise strip trailing generic-word suffixes in list order and re-check. -/
def normalize_location_amended (loc0 : String) : String :=
  let base := pyStrip (pyRemoveAll (pyRemoveAll (pyRemoveAll (pyRemoveAll
    (pyStrip (pyLower loc0)) "indoor ") "outdoor ") "inside ") "the ")
  if base ∈ generic_words ∨ base = "" then "generic"
  else
    let trimmed := stripGenericSuffixes generic_words base
    if trimmed ∈ generic_words ∨ trimmed = "" then "generic" else trimmed

/-- Empty index for the C10 failing input. -/
def c10EmptyIndex : MemoryIndex :=
  { by_object := [], by_activity := [], by_person := [], memories := [], access_log := [] }

/-- Memory whose people list contains an empty name, as the ingestion
boundary can hand over; add indexes it without stripping. -/
def c10Memory : Memory :=
  { id := "mem_20260101_120000"
    timestamp := "2026-01-01T12:00:00"
    location := "desk"
    description := ""
    objects := []
    activities := []
    tags := []
    relationships := []
    audio_transcript := ""
    people := [""]
    conversation_context := ""
    persons := []
    image_path := "" }

/-- Index for the C7 witness: one record indexed only under the key card. -/
def c7Idx : MemoryIndex :=
  { by_object := [("card", ["m1"])], by_activity := [], by_person := [],
    memories := [], access_log := [] }

/-- Held memory for the C3 witness: the keys are seen in hand. -/
def c3HeldMem : Memory :=
  { id := "m1"
    timestamp := "2026-01-01T12:00:00"
    location := "hallway"
    description := ""
    objects := [{ name := "keys", x1 := 0, y1 := 0, x2 := 1, y2 := 1,
                  confidence := 1, context := "in hand" }]
    activities := []
    tags := []
    relationships := []
    audio_transcript := ""
    people := []
    conversation_context := ""
    persons := []
    image_path := "" }

/-- Index for the C3 witness: one record of the keys. -/
def c3Idx : MemoryIndex :=
  { by_object := [("keys", ["m1"])], by_activity := [], by_person := [],
    memories := [], access_log := [] }

/-- Store for the C3 witness. -/
def c3Store : String → Option Memory :=
  fun mid => if mid = "m1" then some c3HeldMem else none

/-- Fresh graph for the C3 witness. -/
def c3Graph : TemporalGraph := {}

/-- Concrete score function for the C5 witness. -/
def c5Score : String → Rat := fun s => if s = "b" then 1 else if s = "c" then 2 else 3

/-! ### Evaluation checks of the embedded primitives -/

example : pyLower "Kitchen Counter" = "kitchen counter" := by decide
example : pyStrip "  desk  " = "desk" := by decide
example : substrOf "top" "top-left" = true := by decide
example : substrOf "car" "card" = true := by decide
example : pyRemoveAll "kitchen the table" "the " = "kitchen table" := by decide
example : pyEndsWith "indoor office" " office" = true := by decide
example : pyDropRight "indoor office" 7 = "indoor" := by decide
example : pyRstripChar "glasses" 's' = "glasse" := by decide
example : pySplitWs "water bottle" = ["water", "bottle"] := by decide
example : pySplitWs "  " = [] := by decide
example : normalize_location "indoor office" = "generic" := by decide
example : normalize_location "the kitchen counter" = "kitchen counter" := by decide
example : normalize_location "kitchen the table" = "kitchen table" := by decide
example : normalize_location "desk" = "desk" := by decide
example : normalize_location "counter" = "counter" := by decide
example : normalize_location "" = "generic" := by decide
example : normalize_location "desk office area" = "desk" := by decide
example : positions_different "bottom" "bottom-left" = false := by decide
example : positions_different "top-left" "bottom-right" = true := by decide
example : positions_different "center" "center-left" = false := by decide
example : matchLastPastNum "hour" "last 2 hours" = some 2 := by decide
example : matchLastPastNum "hour" "past 10 hours" = some 10 := by decide
example : matchLastPastNum "hour" "yesterday" = none := by decide
example : matchLastPastNum "minute" "last 30 minutes" = some 30 := by decide
example : matchLastPastNum "hour" "lastt 2 hours" = none := by decide

/-! ### Sortedness and permutation facts of the stable sort -/

/-- Insertion permutes. -/
theorem insertStable_perm {α : Type} (le : α → α → Bool) (x : α) (l : List α) :
    List.Perm (insertStable le x l) (x :: l) := by
  induction l with
  | nil => exact List.Perm.refl _
  | cons y ys ih =>
    unfold insertStable
    by_cases h : le y x = true
    · rw [if_pos h]
      exact (ih.cons y).trans (List.Perm.swap x y ys)
    · rw [if_neg h]

/-- The sort worker permutes. -/
theorem pyStableSortAux_perm {α : Type} (le : α → α → Bool) (l : List α) :
    ∀ acc, List.Perm (pyStableSortAux le acc l) (acc ++ l) := by
  induction l with
  | nil => intro acc; simp [pyStableSortAux]
  | cons x xs ih =>
    intro acc
    unfold pyStableSortAux
    refine (ih (insertStable le x acc)).trans ?_
    refine (List.Perm.append_right xs (insertStable_perm le x acc)).trans ?_
    exact List.perm_middle.symm

/-- The sort permutes. -/
theorem pyStableSort_perm {α : Type} (le : α → α → Bool) (l : List α) :
    List.Perm (pyStableSort le l) l :=
  pyStableSortAux_perm le l []

/-- Insertion keeps the accumulator sorted, for a total transitive
comparison. -/
theorem insertStable_pairwise {α : Type} {le : α → α → Bool}
    (htotal : ∀ a b, le a b = true ∨ le b a = true)
    (htrans : ∀ a b c, le a b = true → le b c = true → le a c = true)
    (x : α) (l : List α) (hl : l.Pairwise (fun a b => le a b = true)) :
    (insertStable le x l).Pairwise (fun a b => le a b = true) := by
  induction l with
  | nil => simp [insertStable]
  | cons y ys ih =>
    rcases List.pairwise_cons.mp hl with ⟨hy, hys⟩
    unfold insertStable
    by_cases h : le y x = true
    · rw [if_pos h]
      refine List.pairwise_cons.mpr ⟨?_, ih hys⟩
      intro z hz
      rcases List.mem_cons.mp ((insertStable_perm le x ys).mem_iff.mp hz) with rfl | hzys
      · exact h
      · exact hy z hzys
    · rw [if_neg h]
      have hxy : le x y = true := (htotal x y).elim id (fun h2 => absurd h2 h)
      refine List.pairwise_cons.mpr ⟨?_, hl⟩
      intro z hz
      rcases List.mem_cons.mp hz with rfl | hzys
      · exact hxy
      · exact htrans x y z hxy (hy z hzys)

/-- The sort worker keeps sortedness. -/
theorem pyStableSortAux_pairwise {α : Type} {le : α → α → Bool}
    (htotal : ∀ a b, le a b = true ∨ le b a = true)
    (htrans : ∀ a b c, le a b = true → le b c = true → le a c = true)
    (l : List α) : ∀ acc, acc.Pairwise (fun a b => le a b = true) →
      (pyStableSortAux le acc l).Pairwise (fun a b => le a b = true) := by
  induction l with
  | nil => intro acc hacc; exact hacc
  | cons x xs ih =>
    intro acc hacc
    exact ih (insertStable le x acc) (insertStable_pairwise htotal htrans x acc hacc)

/-- The sort sorts. -/
theorem pyStableSort_pairwise {α : Type} {le : α → α → Bool}
    (htotal : ∀ a b, le a b = true ∨ le b a = true)
    (htrans : ∀ a b c, le a b = true → le b c = true → le a c = true)
    (l : List α) : (pyStableSort le l).Pairwise (fun a b => le a b = true) :=
  pyStableSortAux_pairwise htotal htrans l [] List.Pairwise.nil

/-! ### Helper lemmas -/

/-- The tie-break test is equivalent to disagreement on both axes: the early
equality exit implies agreement on both axes anyway. -/
theorem positions_different_iff (p q : String) :
    positions_different p q = true ↔
      (primaryDir (pyLower p) ≠ primaryDir (pyLower q)
       ∧ secondaryDir (pyLower p) ≠ secondaryDir (pyLower q)) := by
  unfold positions_different
  by_cases h : pyLower p = pyLower q
  · simp [h]
  · simp [h]

/-- The movement returned by update on a previously seen entity, as a single
conditional. -/
theorem update_snd_eq (g : TemporalGraph)
    (entity location position timestamp memory_id : String)
    (prev_loc prev_pos prev_time prev_mem : String)
    (h : List.lookup (pyLower entity) g.last_seen
        = some (prev_loc, prev_pos, prev_time, prev_mem)) :
    (g.update entity location position timestamp memory_id).2 =
      (if (decide (normalize_location prev_loc ≠ normalize_location location)
            || positions_different prev_pos position) = true
       then some
         { object_name := pyLower entity
           from_location := prev_loc
           to_location := location
           from_position := prev_pos
           to_position := position
           from_time := prev_time
           to_time := timestamp
           from_memory_id := prev_mem
           to_memory_id := memory_id }
       else none) := by
  unfold TemporalGraph.update
  simp only [h]
  split <;> rfl

/-! ### Claim theorems -/

/-- C1: for an entity already present in last_seen, update emits a movement
if and only if the normalized location differs or the positions disagree on
both the primary and the secondary axis; when a movement is emitted its
from/to locations and positions are the previous and the current ones. -/
theorem C1_update_emits_iff (g : TemporalGraph)
    (entity location position timestamp memory_id : String)
    (prev_loc prev_pos prev_time prev_mem : String)
    (h : List.lookup (pyLower entity) g.last_seen
        = some (prev_loc, prev_pos, prev_time, prev_mem)) :
    ((g.update entity location position timestamp memory_id).2.isSome = true ↔
      (normalize_location prev_loc ≠ normalize_location location
       ∨ (primaryDir (pyLower prev_pos) ≠ primaryDir (pyLower position)
          ∧ secondaryDir (pyLower prev_pos) ≠ secondaryDir (pyLower position))))
    ∧ (∀ m, (g.update entity location position timestamp memory_id).2 = some m →
        m.from_location = prev_loc ∧ m.to_location = location
        ∧ m.from_position = prev_pos ∧ m.to_position = position) := by
  have hsnd := update_snd_eq g entity location position timestamp memory_id
    prev_loc prev_pos prev_time prev_mem h
  constructor
  · rw [hsnd]
    cases hb : (decide (normalize_location prev_loc ≠ normalize_location location)
        || positions_different prev_pos position) with
    | true =>
      rw [if_pos rfl]
      refine iff_of_true rfl ?_
      rw [Bool.or_eq_true] at hb
      rcases hb with hl | hp
      · exact Or.inl (of_decide_eq_true hl)
      · exact Or.inr ((positions_different_iff _ _).mp hp)
    | false =>
      rw [if_neg (by simp)]
      refine iff_of_false (by simp) ?_
      intro hor
      have hbt : (decide (normalize_location prev_loc ≠ normalize_location location)
          || positions_different prev_pos position) = true := by
        rw [Bool.or_eq_true]
        exact hor.elim (fun hl => Or.inl (decide_eq_true hl))
          (fun hp => Or.inr ((positions_different_iff _ _).mpr hp))
      rw [hb] at hbt
      exact Bool.false_ne_true hbt
  · intro m hm
    rw [hsnd] at hm
    by_cases hc : (decide (normalize_location prev_loc ≠ normalize_location location)
        || positions_different prev_pos position) = true
    · rw [if_pos hc] at hm
      cases hm
      exact ⟨rfl, rfl, rfl, rfl⟩
    · rw [if_neg hc] at hm
      exact absurd hm (by simp)

/-- Witness for C1: from desk/top-left, an update to counter/bottom-right
emits a movement carrying those endpoints, and from bottom, an update with
unchanged location to bottom-left emits nothing. -/
theorem C1_update_emits_iff_witness :
    (c1Graph.update "keys" "counter" "bottom-right" "t2" "m2").2.isSome = true
    ∧ (∀ m, (c1Graph.update "keys" "counter" "bottom-right" "t2" "m2").2 = some m →
        m.from_location = "desk" ∧ m.to_location = "counter"
        ∧ m.from_position = "top-left" ∧ m.to_position = "bottom-right")
    ∧ (c1GraphB.update "keys" "desk" "bottom-left" "t2" "m2").2.isSome ≠ true := by
  refine ⟨?_, ?_, ?_⟩
  · exact (C1_update_emits_iff c1Graph "keys" "counter" "bottom-right" "t2" "m2"
      "desk" "top-left" "t1" "m1" rfl).1.mpr (by decide)
  · exact (C1_update_emits_iff c1Graph "keys" "counter" "bottom-right" "t2" "m2"
      "desk" "top-left" "t1" "m1" rfl).2
  · intro hs
    exact absurd ((C1_update_emits_iff c1GraphB "keys" "desk" "bottom-left" "t2" "m2"
      "desk" "bottom" "t1" "m1" rfl).1.mp hs) (by decide)

/-- C2 counterexample: the source deletes the qualifier "the " even in the
middle of the string, so a qualifier occurring elsewhere than as a leading
prefix is not left in place, contradicting the claim: the claimed reading
keeps "kitchen the table" intact while the code returns "kitchen table". -/
theorem C2_counterexample :
    normalize_location "kitchen the table" = "kitchen table"
    ∧ normalize_location_claimed "kitchen the table" = "kitchen the table"
    ∧ normalize_location "kitchen the table"
        ≠ normalize_location_claimed "kitchen the table" := by
  refine ⟨by decide, by decide, by decide⟩

/-- C2 amended: the source normalization lowercases, trims, deletes every
occurrence of each qualifier substring (in the order indoor, outdoor, inside,
the), trims, collapses a generic or empty remainder to the sentinel generic,
and otherwise strips trailing generic-word suffixes and re-checks. -/
theorem C2_normalize_location_amended :
    ∀ loc, normalize_location loc = normalize_location_amended loc := by
  intro loc
  unfold normalize_location normalize_location_amended
  simp only [List.foldl]
  set b := pyStrip (pyRemoveAll (pyRemoveAll (pyRemoveAll (pyRemoveAll
    (pyStrip (pyLower loc)) "indoor ") "outdoor ") "inside ") "the ") with hb
  by_cases h1 : b ∈ generic_words ∨ b = ""
  · rw [if_pos h1, if_pos h1]
  · rw [if_neg h1, if_neg h1]
    set t := stripGenericSuffixes generic_words b with ht
    by_cases h2 : t ∈ generic_words ∨ t = ""
    · rw [if_pos h2, if_pos h2]
    · rw [if_neg h2, if_neg h2, if_neg (fun he => h2 (Or.inr he))]

/-- C10: after add indexes a record whose people list holds an empty name,
find_by_person on a non-empty query reaches the fuzzy branch and evaluates
the head of the empty word split of that key, which raises IndexError in the
source; the model returns the error outcome instead of a list. -/
theorem C10_find_by_person_raises :
    (c10EmptyIndex.add c10Memory).find_by_person "john" = Except.error () := by
  rfl

/-- The exact pass depends on the expanded terms only through membership. -/
theorem exactMatches_congr (b : List (String × List String)) (t1 t2 : List String)
    (h : ∀ y, y ∈ t1 ↔ y ∈ t2) : exactMatches b t1 = exactMatches b t2 := by
  unfold exactMatches
  congr 1
  funext acc kv
  by_cases hk : kv.1 ∈ t1
  · rw [if_pos hk, if_pos ((h kv.1).mp hk)]
  · rw [if_neg hk, if_neg (fun hc => hk ((h kv.1).mpr hc))]

/-- The fuzzy pass depends on the expanded terms only through membership. -/
theorem fuzzyMatches_congr (b : List (String × List String)) (t1 t2 : List String)
    (h : ∀ y, y ∈ t1 ↔ y ∈ t2) : fuzzyMatches b t1 = fuzzyMatches b t2 := by
  unfold fuzzyMatches
  congr 1
  funext acc kv
  by_cases hk : ∃ t ∈ t1, fuzzyCond kv.1 t = true
  · obtain ⟨t, ht, hc⟩ := hk
    rw [if_pos ⟨t, ht, hc⟩, if_pos ⟨t, (h t).mp ht, hc⟩]
  · rw [if_neg hk, if_neg (fun hc => hk (hc.elim (fun t htc => ⟨t, (h t).mpr htc.1, htc.2⟩)))]

/-- C6: lookups for glasses and for eyeglasses expand to the same canonical
plus synonym term set, so find_by_object returns identical result lists on
every index state. -/
theorem C6_synonym_symmetry (idx : MemoryIndex) :
    idx.find_by_object "glasses" = idx.find_by_object "eyeglasses" := by
  unfold MemoryIndex.find_by_object
  have h1 : searchTermsFor (pyStrip (pyLower "glasses"))
      = ["glasses", "eyeglasses", "eye glasses", "spectacles", "specs",
         "reading glasses", "sunglasses"] := by decide
  have h2 : searchTermsFor (pyStrip (pyLower "eyeglasses"))
      = ["eyeglasses", "glasses", "eye glasses", "spectacles", "specs",
         "reading glasses", "sunglasses"] := by decide
  have hmem : ∀ y, y ∈ searchTermsFor (pyStrip (pyLower "glasses"))
      ↔ y ∈ searchTermsFor (pyStrip (pyLower "eyeglasses")) := by
    intro y
    rw [h1, h2]
    simp only [List.mem_cons, List.not_mem_nil]
    tauto
  simp only [exactMatches_congr idx.by_object _ _ hmem,
    fuzzyMatches_congr idx.by_object _ _ hmem]

/-- Membership after a set update. -/
theorem mem_setUpdate (xs : List String) (l : List String) (y : String) :
    y ∈ setUpdate l xs ↔ y ∈ l ∨ y ∈ xs := by
  induction xs generalizing l with
  | nil => simp [setUpdate]
  | cons x rest ih =>
    unfold setUpdate at ih ⊢
    simp only [List.foldl_cons, List.mem_cons]
    rw [ih (setAdd l x)]
    unfold setAdd
    by_cases h : x ∈ l
    · rw [if_pos h]
      constructor
      · rintro (hy | hy)
        · exact Or.inl hy
        · exact Or.inr (Or.inr hy)
      · rintro (hy | rfl | hy)
        · exact Or.inl hy
        · exact Or.inl h
        · exact Or.inr hy
    · rw [if_neg h]
      simp only [List.mem_append, List.mem_singleton]
      tauto

/-- Membership in the guarded union fold used by both match passes. -/
theorem mem_foldl_union {p : String × List String → Prop} [DecidablePred p]
    (l : List (String × List String)) (acc : List String) (x : String) :
    (x ∈ l.foldl (fun acc kv => if p kv then setUpdate acc kv.2 else acc) acc) ↔
      x ∈ acc ∨ ∃ kv ∈ l, p kv ∧ x ∈ kv.2 := by
  induction l generalizing acc with
  | nil => simp
  | cons kv rest ih =>
    simp only [List.foldl_cons, List.mem_cons]
    rw [ih]
    by_cases hp : p kv
    · rw [if_pos hp]
      simp only [mem_setUpdate]
      constructor
      · rintro ((hx | hx) | ⟨kv2, hkv2, hpkv2, hxkv2⟩)
        · exact Or.inl hx
        · exact Or.inr ⟨kv, Or.inl rfl, hp, hx⟩
        · exact Or.inr ⟨kv2, Or.inr hkv2, hpkv2, hxkv2⟩
      · rintro (hx | ⟨kv2, (rfl | hkv2), hpkv2, hxkv2⟩)
        · exact Or.inl (Or.inl hx)
        · exact Or.inl (Or.inr hxkv2)
        · exact Or.inr ⟨kv2, hkv2, hpkv2, hxkv2⟩
    · rw [if_neg hp]
      constructor
      · rintro (hx | ⟨kv2, hkv2, hpkv2, hxkv2⟩)
        · exact Or.inl hx
        · exact Or.inr ⟨kv2, Or.inr hkv2, hpkv2, hxkv2⟩
      · rintro (hx | ⟨kv2, (rfl | hkv2), hpkv2, hxkv2⟩)
        · exact Or.inl hx
        · exact absurd hpkv2 hp
        · exact Or.inr ⟨kv2, hkv2, hpkv2, hxkv2⟩

/-- Membership in the sorted-descending rendering of a match set. -/
theorem mem_pySortedDesc (s : List String) (x : String) :
    x ∈ pySortedDesc s ↔ x ∈ s := by
  unfold pySortedDesc
  rw [List.mem_reverse, (pyStableSort_perm strLeb s.dedup).mem_iff, List.mem_dedup]

/-- C7: a record indexed only under the key card is never returned by a
lookup of car; neither the exact pass nor the conservative fuzzy pass
accepts the key card for the term car. -/
theorem C7_car_not_card (idx : MemoryIndex) (mem_id : String)
    (h : ∀ kv ∈ idx.by_object, mem_id ∈ kv.2 → kv.1 = "card") :
    mem_id ∉ idx.find_by_object "car" := by
  intro hmem
  have hterms : searchTermsFor (pyStrip (pyLower "car")) = ["car"] := by decide
  unfold MemoryIndex.find_by_object at hmem
  simp only [hterms] at hmem
  by_cases hne : exactMatches idx.by_object ["car"] ≠ []
  · rw [if_pos hne] at hmem
    rw [mem_pySortedDesc] at hmem
    unfold exactMatches at hmem
    rw [mem_foldl_union] at hmem
    rcases hmem with hx | ⟨kv, hkv, hpkv, hxkv⟩
    · exact absurd hx (List.not_mem_nil mem_id)
    · have hcard := h kv hkv hxkv
      rw [hcard] at hpkv
      exact absurd hpkv (by decide)
  · rw [if_neg hne] at hmem
    rw [mem_pySortedDesc] at hmem
    unfold fuzzyMatches at hmem
    rw [mem_foldl_union] at hmem
    rcases hmem with hx | ⟨kv, hkv, hpkv, hxkv⟩
    · exact absurd hx (List.not_mem_nil mem_id)
    · have hcard := h kv hkv hxkv
      rw [hcard] at hpkv
      exact absurd hpkv (by decide)

/-- Witness for C7 at a concrete index: the record indexed only under card
is not returned by a lookup of car. -/
theorem C7_car_not_card_witness : "m1" ∉ c7Idx.find_by_object "car" :=
  C7_car_not_card c7Idx "m1" (by
    intro kv hkv hm
    simp only [c7Idx, List.mem_singleton] at hkv
    rw [hkv])

/-- The placed filter on a list whose every id loads to a held record keeps
nothing and remembers the first held memory, the one of the head id. -/
theorem placedScan_all_held (store : String → Option Memory) (entity : String)
    (l : List String)
    (h : ∀ mid ∈ l, ∃ mem, store mid = some mem ∧ heldRecord mem entity = true) :
    (placedScan store entity l).1 = []
    ∧ (placedScan store entity l).2 = l.head?.bind store := by
  induction l with
  | nil => exact ⟨rfl, rfl⟩
  | cons mid rest ih =>
    obtain ⟨mem, hsm, hheld⟩ := h mid (List.mem_cons_self mid rest)
    have hrest := ih (fun m hm => h m (List.mem_cons_of_mem mid hm))
    unfold placedScan
    rw [hsm]
    simp only [hheld, if_true]
    exact ⟨hrest.1, by rw [List.head?_cons, Option.some_bind, hsm]⟩

/-- C3: a placed object query whose every matching record loads to a held
sighting returns the first held record, the one of the newest matching id,
tagged with the only-held outcome together with the movement history, rather
than a normal location answer. -/
theorem C3_only_held (idx : MemoryIndex) (store : String → Option Memory)
    (temporal : TemporalGraph) (entity : String)
    (hne : idx.find_by_object entity ≠ [])
    (hheld : ∀ mid ∈ idx.find_by_object entity,
      ∃ mem, store mid = some mem ∧ heldRecord mem entity = true) :
    ∃ mem, (idx.find_by_object entity).head?.bind store = some mem
      ∧ find_object_objectPath idx store temporal entity true =
          FindResult.onlyInHand mem (temporal.get_history entity 10) := by
  obtain ⟨hps, hih⟩ := placedScan_all_held store entity (idx.find_by_object entity) hheld
  obtain ⟨mid0, rest0, hl⟩ := List.exists_cons_of_ne_nil hne
  obtain ⟨mem0, hsm0, _⟩ := hheld mid0 (by rw [hl]; exact List.mem_cons_self mid0 rest0)
  refine ⟨mem0, ?_, ?_⟩
  · rw [hl, List.head?_cons, Option.some_bind, hsm0]
  · unfold find_object_objectPath
    simp only [hl] at hps hih
    simp only [hl, List.isEmpty_cons, Bool.not_false, Bool.true_and, if_true]
    rw [hps, hih]
    simp [hsm0]

/-- Witness for C3: with a single record whose context is in hand, the
placed query returns the only-held outcome with that record. -/
theorem C3_only_held_witness :
    ∃ mem, (c3Idx.find_by_object "keys").head?.bind c3Store = some mem
      ∧ find_object_objectPath c3Idx c3Store c3Graph "keys" true =
          FindResult.onlyInHand mem (c3Graph.get_history "keys" 10) := by
  refine C3_only_held c3Idx c3Store c3Graph "keys" (by decide) ?_
  intro mid hmid
  have hm : mid = "m1" := by
    have : c3Idx.find_by_object "keys" = ["m1"] := by decide
    rw [this] at hmid
    exact List.mem_singleton.mp hmid
  exact ⟨c3HeldMem, by rw [hm]; rfl, by decide⟩

/-- Numeric bracket on the recency value at seven days: the source constant
0.693 sits just below the natural log of two, so the seven-day recency sits
just above one half. -/
theorem recency_seven_bounds :
    1 / 2 < Real.exp (-(0.693) * 7 / 7.0)
    ∧ Real.exp (-(0.693) * 7 / 7.0) < 0.5001 := by
  have harg : -(0.693 : Real) * 7 / 7.0 = -(0.693 : Real) := by norm_num
  rw [harg]
  have hgt : (0.693 : Real) < Real.log 2 := by
    have h9 := Real.log_two_gt_d9
    norm_num at h9 ⊢
    linarith
  have hlt : Real.log 2 < 0.6931471808 := Real.log_two_lt_d9
  constructor
  · have h1 : Real.exp (-Real.log 2) < Real.exp (-(0.693 : Real)) :=
      Real.exp_lt_exp.mpr (by linarith)
    have h2 : Real.exp (-Real.log 2) = 1 / 2 := by
      rw [Real.exp_neg, Real.exp_log (by norm_num : (0:Real) < 2)]
      norm_num
    linarith [h2 ▸ h1]
  · set d := Real.log 2 - 0.693 with hd
    have hd0 : 0 < d := by rw [hd]; linarith
    have hdu : d < 0.0001471808 := by rw [hd]; linarith
    have hsplit : (-(0.693) : Real) = d - Real.log 2 := by rw [hd]; ring
    rw [hsplit, Real.exp_sub, Real.exp_log (by norm_num : (0:Real) < 2)]
    have h1 : 1 - d ≤ Real.exp (-d) := by
      have := Real.add_one_le_exp (-d)
      linarith
    have h2 : (0:Real) < 1 - d := by
      have hd1 : d < 1 := lt_trans hdu (by norm_num)
      linarith
    have h3 : Real.exp d = 1 / Real.exp (-d) := by
      rw [Real.exp_neg]
      field_simp
    have h4 : Real.exp d ≤ 1 / (1 - d) := by
      rw [h3]
      exact one_div_le_one_div_of_le h2 h1
    have h5 : 1 / (1 - d) < 1 / (1 - 0.0001471808 : Real) := by
      apply one_div_lt_one_div_of_lt
      · norm_num
      · linarith
    have h6 : (1 : Real) / (1 - 0.0001471808 : Real) < 1.0002 := by norm_num
    have h7 : Real.exp d < 1.0002 := lt_of_le_of_lt h4 (h5.trans h6)
    have he0 : (0:Real) < Real.exp d := Real.exp_pos d
    nlinarith

/-- C4 counterexample: the source computes the recency with the literal
constant 0.693, not with the natural log of two, so at age seven days and
zero accesses the score differs from the claimed closed form, which would
give exactly one half. -/
theorem C4_decay_score_counterexample :
    decayScoreR 7 0 ≠ Real.exp (-(Real.log 2) * 7 / 7.0) + min ((0:Nat) * 0.1 : Real) 1.0 := by
  have hrhs : Real.exp (-(Real.log 2) * 7 / 7.0) + min ((0:Nat) * 0.1 : Real) 1.0
      = 1 / 2 := by
    have : -(Real.log 2) * 7 / 7.0 = -Real.log 2 := by ring
    rw [this, Real.exp_neg, Real.exp_log (by norm_num : (0:Real) < 2)]
    norm_num
  have hlhs : decayScoreR 7 0 = Real.exp (-(0.693) * 7 / 7.0) := by
    unfold decayScoreR
    norm_num
  rw [hrhs, hlhs]
  exact ne_of_gt recency_seven_bounds.1

/-- C4 amended: the decay score equals exp of the literal constant negated
0.693 (an approximation of the natural log of two) times ageDays over 7 plus
the capped access boost; it is strictly decreasing in age at fixed access
count, strictly increasing in access count below the cap at fixed age, takes
the value 1 at age zero with no accesses, sits within a thousandth of one
half at seven days with no accesses and within a thousandth of one at seven
days with five accesses, and treats a missing or unparsable timestamp as age
thirty days. -/
theorem C4_decay_score_amended :
    (∀ (c : Nat) (a1 a2 : Real), a1 < a2 → decayScoreR a2 c < decayScoreR a1 c)
    ∧ (∀ (a : Real) (c1 c2 : Nat), c1 < c2 → c2 ≤ 10 →
        decayScoreR a c1 < decayScoreR a c2)
    ∧ decayScoreR 0 0 = 1
    ∧ |decayScoreR 7 0 - 0.5| < 0.001
    ∧ |decayScoreR 7 5 - 1| < 0.001
    ∧ (∀ c, decayScoreOf none c = decayScoreR 30 c) := by
  refine ⟨?_, ?_, ?_, ?_, ?_, fun c => by unfold decayScoreOf; norm_num⟩
  · intro c a1 a2 h
    unfold decayScoreR
    have : Real.exp (-(0.693) * a2 / 7.0) < Real.exp (-(0.693) * a1 / 7.0) := by
      apply Real.exp_lt_exp.mpr
      nlinarith
    linarith
  · intro a c1 c2 hlt hcap
    unfold decayScoreR
    have hc1 : (c1 : Real) ≤ 9 := by
      have : c1 ≤ 9 := by omega
      exact_mod_cast this
    have hc12 : (c1 : Real) + 1 ≤ (c2 : Real) := by exact_mod_cast hlt
    have hmin1 : min ((c1 : Real) * 0.1) 1.0 = (c1 : Real) * 0.1 := by
      apply min_eq_left
      nlinarith
    have hmin2 : (c1 : Real) * 0.1 < min ((c2 : Real) * 0.1) 1.0 := by
      apply lt_min
      · nlinarith
      · nlinarith
    rw [hmin1]
    linarith
  · unfold decayScoreR
    norm_num
  · unfold decayScoreR
    have hb := recency_seven_bounds
    rw [abs_lt]
    norm_num
    constructor <;> nlinarith [hb.1, hb.2]
  · unfold decayScoreR
    have hb := recency_seven_bounds
    rw [abs_lt]
    have hmin : min ((5:Nat) * 0.1 : Real) 1.0 = 0.5 := by norm_num
    rw [hmin]
    constructor <;> nlinarith [hb.1, hb.2]

/-- Witness for C4 at concrete inputs: aging from zero to seven days lowers
the score and a sixth access raises it. -/
theorem C4_decay_score_amended_witness :
    decayScoreR 7 0 < decayScoreR 0 0 ∧ decayScoreR 3 5 < decayScoreR 3 6 :=
  ⟨C4_decay_score_amended.1 0 0 7 (by norm_num),
   C4_decay_score_amended.2.1 3 5 6 (by norm_num) (by norm_num)⟩

/-- Length of the survivors after removing a distinct sublist of ids. -/
theorem length_filter_not_mem (l cands : List String) (hl : l.Nodup)
    (hc : cands.Nodup) (hsub : ∀ x ∈ cands, x ∈ l) :
    (l.filter (fun x => decide (x ∉ cands))).length = l.length - cands.length := by
  have h1 : (l.filter (fun x => decide (x ∉ cands))).toFinset
      = l.toFinset \ cands.toFinset := by
    rw [List.toFinset_filter]
    ext x
    simp [Finset.mem_sdiff, List.mem_toFinset]
  have hnd : (l.filter (fun x => decide (x ∉ cands))).Nodup := hl.filter _
  have h2 := List.toFinset_card_of_nodup hnd
  rw [h1] at h2
  rw [← h2, Finset.card_sdiff (fun x hx => List.mem_toFinset.mpr
      (hsub x (List.mem_toFinset.mp hx))),
    List.toFinset_card_of_nodup hl, List.toFinset_card_of_nodup hc]

/-- Sorting ids by their scores and reading the scores off gives the sorted
score list. -/
theorem map_score_pyStableSort (score : String → Rat) (l : List String) :
    (pyStableSort (fun a b => decide (score a ≤ score b)) l).map score
      = pyStableSort (fun a b : Rat => decide (a ≤ b)) (l.map score) := by
  haveI : IsAntisymm Rat (fun a b => decide (a ≤ b) = true) :=
    ⟨fun a b h1 h2 => le_antisymm (of_decide_eq_true h1) (of_decide_eq_true h2)⟩
  have htotq : ∀ a b : Rat, decide (a ≤ b) = true ∨ decide (b ≤ a) = true :=
    fun a b => (le_total a b).elim (fun h => Or.inl (decide_eq_true h))
      (fun h => Or.inr (decide_eq_true h))
  have htrq : ∀ a b c : Rat, decide (a ≤ b) = true → decide (b ≤ c) = true →
      decide (a ≤ c) = true :=
    fun a b c h1 h2 => decide_eq_true (le_trans (of_decide_eq_true h1) (of_decide_eq_true h2))
  apply List.eq_of_perm_of_sorted (r := fun a b : Rat => decide (a ≤ b) = true)
  · exact ((pyStableSort_perm _ l).map score).trans
      (pyStableSort_perm _ (l.map score)).symm
  · exact List.pairwise_map.mpr
      (pyStableSort_pairwise (fun a b => htotq (score a) (score b))
        (fun a b c => htrq (score a) (score b) (score c)) l)
  · exact pyStableSort_pairwise htotq htrq (l.map score)

/-- C5: cleanup is a no-op at or below the limit; above it, it evicts
exactly count minus limit records, their scores are exactly the lowest
count minus limit scores of the live records, and the surviving store is
left with exactly the limit many records. -/
theorem C5_cleanup_policy (score : String → Rat) (memory_files : List String)
    (max_records : Nat) :
    (memory_files.length ≤ max_records →
      cleanup_old_memories score memory_files max_records = (0, []))
    ∧ (max_records < memory_files.length →
      (cleanup_old_memories score memory_files max_records).1
          = memory_files.length - max_records
      ∧ (cleanup_old_memories score memory_files max_records).2.map score
          = (pyStableSort (fun a b : Rat => decide (a ≤ b)) (memory_files.map score)).take
              (memory_files.length - max_records)
      ∧ (memory_files.Nodup →
          (memory_files.filter (fun f => decide
              (f ∉ (cleanup_old_memories score memory_files max_records).2))).length
            = max_records)) := by
  constructor
  · intro h
    unfold cleanup_old_memories
    rw [if_pos h]
  · intro h
    have hnle : ¬ memory_files.length ≤ max_records := not_le.mpr h
    have hcand : (cleanup_old_memories score memory_files max_records).2
        = (pyStableSort (fun a b => decide (score a ≤ score b)) memory_files).take
            (memory_files.length - max_records) := by
      unfold cleanup_old_memories
      rw [if_neg hnle]
    have hlen : (pyStableSort (fun a b => decide (score a ≤ score b)) memory_files).length
        = memory_files.length :=
      (pyStableSort_perm _ memory_files).length_eq
    have hklen : memory_files.length - max_records ≤ memory_files.length :=
      Nat.sub_le _ _
    have hcandlen : ((cleanup_old_memories score memory_files max_records).2).length
        = memory_files.length - max_records := by
      rw [hcand, List.length_take, hlen]
      exact Nat.min_eq_left hklen
    refine ⟨?_, ?_, ?_⟩
    · have hfst : (cleanup_old_memories score memory_files max_records).1
          = ((cleanup_old_memories score memory_files max_records).2).length := by
        unfold cleanup_old_memories
        rw [if_neg hnle]
      rw [hfst, hcandlen]
    · rw [hcand, List.map_take, map_score_pyStableSort]
    · intro hnd
      have hcnd : ((cleanup_old_memories score memory_files max_records).2).Nodup := by
        rw [hcand]
        exact ((pyStableSort_perm _ memory_files).nodup_iff.mpr hnd).sublist
          (List.take_sublist _ _)
      have hsub : ∀ x ∈ (cleanup_old_memories score memory_files max_records).2,
          x ∈ memory_files := by
        intro x hx
        rw [hcand] at hx
        exact (pyStableSort_perm _ memory_files).mem_iff.mp
          (List.mem_of_mem_take hx)
      rw [length_filter_not_mem memory_files _ hnd hcnd hsub, hcandlen]
      omega

/-- Witness for C5 on a three-record store with limit one: two records are
evicted, their scores are the two lowest, and one record survives. -/
theorem C5_cleanup_policy_witness :
    (cleanup_old_memories c5Score ["a", "b", "c"] 1).1
        = (["a", "b", "c"] : List String).length - 1
    ∧ (cleanup_old_memories c5Score ["a", "b", "c"] 1).2.map c5Score
        = (pyStableSort (fun a b : Rat => decide (a ≤ b))
            ((["a", "b", "c"] : List String).map c5Score)).take
            ((["a", "b", "c"] : List String).length - 1)
    ∧ ((["a", "b", "c"] : List String).filter (fun f => decide
        (f ∉ (cleanup_old_memories c5Score ["a", "b", "c"] 1).2))).length = 1 := by
  have h := (C5_cleanup_policy c5Score ["a", "b", "c"] 1).2 (by decide)
  exact ⟨h.1, h.2.1, h.2.2 (by decide)⟩

/-- Round trip of one encoded last_seen tuple. -/
theorem decodeTuple4_encode (a b c d : String) :
    decodeTuple4 (encodeStrList [a, b, c, d]) = some (a, b, c, d) := rfl

/-- Round trip of one encoded attached tuple. -/
theorem decodeTuple2_encode (a b : String) :
    decodeTuple2 (encodeStrList [a, b]) = some (a, b) := rfl

/-- Round trip of one encoded movement record. -/
theorem decodeMovement_encode (m : ObjectMovement) :
    decodeMovement (encodeMovement m) = some m := rfl

/-- Definitional equation of decodeDict on an object node. -/
theorem decodeDict_obj {α : Type} (f : JVal → Option α) (fields : List (String × JVal)) :
    decodeDict f (JVal.obj fields)
      = fields.mapM (fun kv => do pure (kv.1, ← f kv.2)) := rfl

/-- Round trip of the encoded last_seen map. -/
theorem decode_last_seen (ls : List (String × (String × String × String × String))) :
    decodeDict decodeTuple4 (JVal.obj (ls.map (fun kv =>
      (kv.1, encodeStrList [kv.2.1, kv.2.2.1, kv.2.2.2.1, kv.2.2.2.2])))) = some ls := by
  induction ls with
  | nil => rfl
  | cons kv rest ih =>
    obtain ⟨k, a, b, c, d⟩ := kv
    rw [decodeDict_obj] at ih ⊢
    simp only [List.map_cons, List.mapM_cons, ih]
    rfl

/-- Round trip of the encoded movements map. -/
theorem decode_movements (mv : List (String × List ObjectMovement)) :
    decodeDict (fun w => match w with
      | JVal.arr ms => ms.mapM decodeMovement
      | _ => none)
      (JVal.obj (mv.map (fun kv => (kv.1, JVal.arr (kv.2.map encodeMovement)))))
      = some mv := by
  have hlist : ∀ v : List ObjectMovement,
      (v.map encodeMovement).mapM decodeMovement = some v := by
    intro v
    induction v with
    | nil => rfl
    | cons m rest ihv =>
      simp only [List.map_cons, List.mapM_cons, decodeMovement_encode, ihv]
      rfl
  induction mv with
  | nil => rfl
  | cons kv rest ih =>
    obtain ⟨k, v⟩ := kv
    rw [decodeDict_obj] at ih ⊢
    simp only [List.map_cons, List.mapM_cons, hlist, ih]
    rfl

/-- Round trip of the encoded attached map. -/
theorem decode_attached (ao : List (String × (String × String))) :
    decodeDict decodeTuple2 (JVal.obj (ao.map (fun kv =>
      (kv.1, encodeStrList [kv.2.1, kv.2.2])))) = some ao := by
  induction ao with
  | nil => rfl
  | cons kv rest ih =>
    obtain ⟨k, a, b⟩ := kv
    rw [decodeDict_obj] at ih ⊢
    simp only [List.map_cons, List.mapM_cons, decodeTuple2_encode, ih]
    rfl

/-- C8: saving a graph and loading the snapshot into a fresh graph
reproduces the last_seen map, the movements map with the same records in the
same per-entity order, and the attached objects map. -/
theorem C8_graph_roundtrip (g fresh : TemporalGraph) :
    (TemporalGraph.load (TemporalGraph.save g) fresh).last_seen = g.last_seen
    ∧ (TemporalGraph.load (TemporalGraph.save g) fresh).movements = g.movements
    ∧ (TemporalGraph.load (TemporalGraph.save g) fresh).attached_objects
        = g.attached_objects := by
  have hstep : TemporalGraph.load (TemporalGraph.save g) fresh =
      ((do
        let last_seen ← decodeDict decodeTuple4 (JVal.obj (g.last_seen.map (fun kv =>
          (kv.1, encodeStrList [kv.2.1, kv.2.2.1, kv.2.2.2.1, kv.2.2.2.2]))))
        let movements ← decodeDict (fun w => match w with
          | JVal.arr ms => ms.mapM decodeMovement
          | _ => none)
          (JVal.obj (g.movements.map (fun kv => (kv.1, JVal.arr (kv.2.map encodeMovement)))))
        let attached_objects ← decodeDict decodeTuple2 (JVal.obj (g.attached_objects.map
          (fun kv => (kv.1, encodeStrList [kv.2.1, kv.2.2]))))
        pure { last_seen := last_seen, movements := movements,
               attached_objects := attached_objects,
               total_movements := g.total_movements,
               start_time := g.start_time : TemporalGraph }) : Option TemporalGraph).getD fresh := rfl
  rw [hstep, decode_last_seen, decode_movements, decode_attached]
  exact ⟨rfl, rfl, rfl⟩

/-- C9: the window for last 2 hours is the trailing two hours, the window
for yesterday runs from the previous midnight to the current midnight, and
any expression recognised by no branch yields the trailing 24 hours. -/
theorem C9_parse_time_entity (now : Int) :
    parse_time_entity now "last 2 hours" = (now - 7200, now)
    ∧ parse_time_entity now "yesterday" = (todayStart now - 86400, todayStart now)
    ∧ (∀ e, timeExprRecognized (pyStrip (pyLower e)) = false →
        parse_time_entity now e = (now - 86400, now)) := by
  refine ⟨?_, ?_, ?_⟩
  · show (now - ((2 : Nat) : Int) * 3600, now) = (now - 7200, now)
    norm_num
  · rfl
  · intro e hrec
    unfold timeExprRecognized at hrec
    rw [Bool.or_eq_false_iff, Bool.or_eq_false_iff] at hrec
    obtain ⟨⟨hh, hm⟩, hkw⟩ := hrec
    rw [Bool.eq_false_iff, Ne, Option.isSome_iff_exists] at hh hm
    push_neg at hh hm
    have hh2 : matchLastPastNum "hour" (pyStrip (pyLower e)) = none :=
      Option.eq_none_iff_forall_not_mem.mpr (fun a ha => hh a ha)
    have hm2 : matchLastPastNum "minute" (pyStrip (pyLower e)) = none :=
      Option.eq_none_iff_forall_not_mem.mpr (fun a ha => hm a ha)
    have hkw2 : pyStrip (pyLower e) ∉ (["this morning", "this afternoon",
        "this evening", "tonight", "today", "yesterday", "last hour",
        "past hour", "last night"] : List String) := of_decide_eq_false hkw
    simp only [List.mem_cons, List.not_mem_nil, or_false, not_or] at hkw2
    obtain ⟨h1, h2, h3, h4, h5, h6, h7, h8, h9⟩ := hkw2
    unfold parse_time_entity
    simp only [hh2, hm2]
    rw [if_neg h1, if_neg h2, if_neg (by tauto), if_neg h5, if_neg h6,
      if_neg (by tauto), if_neg h9]
    norm_num

/-- Witness for C9 at a concrete clock and an unrecognised expression. -/
theorem C9_parse_time_entity_witness :
    parse_time_entity 1000000 "last 2 hours" = (992800, 1000000)
    ∧ parse_time_entity 1000000 "banana" = (913600, 1000000) := by
  constructor
  · rw [(C9_parse_time_entity 1000000).1]
    norm_num
  · rw [(C9_parse_time_entity 1000000).2.2 "banana" (by rfl)]
    norm_num
